import Mathlib

/-!
Shallow embedding of the go-exchange-server admin-contact controller
(`adminContactController`: `getContacts`, `addContact`, `updateContact`,
`deleteContact`, `reorderContacts`), the `getAdminEmails` helper, and the
profile-update endpoint, together with proofs of the spec's properties.

The document database is modelled as in-memory lists (`DB`); each Express
handler becomes a function from the optional authenticated user
(`res.locals.user`), the request payload, and the database state to an HTTP
status code, an optional response payload, and the new database state.
JavaScript `undefined`/`null` on string fields is modelled as `Option.none`,
and JS truthiness of a string field (`!name`) as `truthy`.
-/

namespace ExchangeServer

/-- Authenticated user document (auth-server `users` collection): email,
avatar, role level (`user_level_id`; 2 and 3 are admin), and the profile
fields the spec lists for `updateProfile` (`userName`, `bio`, `preferences`). -/
structure User where
  id : String
  email : String
  avatarUrl : Option String
  user_level_id : Int
  userName : String
  bio : String
  preferences : String
  deriving Repr, DecidableEq

/-- Stored admin contact document (`AdminContactSchema`): required `name`,
`title`, `email`, and `position` (a `Number` defaulting to 0). -/
structure Contact where
  id : String
  name : String
  title : String
  email : String
  position : Int
  deriving Repr, DecidableEq

/-- Contact as returned by `getContacts`: the stored fields plus the derived
`avatarUrl`, which the handler always sets (to a string or to `null`, here
`none`), so the field is statically never missing. -/
structure EnrichedContact where
  id : String
  name : String
  title : String
  email : String
  position : Int
  avatarUrl : Option String
  deriving Repr, DecidableEq

/-- Database state: the `admincontacts` and `users` collections, in document
order. -/
structure DB where
  contacts : List Contact
  users : List User
  deriving Repr, DecidableEq

/-- Role levels treated as admin, the literal `[2, 3]` of the controller. -/
def adminLevels : List Int := [2, 3]

/-- JS `[2, 3].includes(user.user_level_id)`. -/
def isAdmin (u : User) : Bool := adminLevels.contains u.user_level_id

/-- JS truthiness of an optional string field: `undefined`, `null` and the
empty string are falsy, every other string is truthy. -/
def truthy : Option String → Bool
  | none => false
  | some s => s ≠ ""

/-- Comparison used by `AdminContact.find().sort({position: 1})`. -/
def posLe (a b : Contact) : Bool := a.position ≤ b.position

/-- Pairs fed to `new Map(users.map((u) => [u.email, u.avatarUrl]))`. -/
def userPairs (users : List User) : List (String × Option String) :=
  users.map (fun u => (u.email, u.avatarUrl))

/-- Semantics of `new Map(pairs).get(k)`: a later pair with the same key
overwrites an earlier one, so the lookup finds the last matching pair;
`none` is JS `undefined` (key absent). -/
def mapGet (pairs : List (String × Option String)) (k : String) : Option (Option String) :=
  (pairs.reverse.find? (fun p => p.1 = k)).map Prod.snd

/-- JS `x || null` applied to the result of the map lookup: a missing key,
a stored `undefined`/`null` avatar, and an empty-string avatar all collapse
to `null`. -/
def orNull : Option (Option String) → Option String
  | some (some s) => if s = "" then none else some s
  | some none => none
  | none => none

/-- Per-contact enrichment step of `getContacts`: spread the contact and set
`avatarUrl: userMap.get(contact.email) || null`. -/
def enrich (users : List User) (c : Contact) : EnrichedContact :=
  { id := c.id, name := c.name, title := c.title, email := c.email,
    position := c.position, avatarUrl := orNull (mapGet (userPairs users) c.email) }

/-- Embedding of `getContacts`: read all contacts sorted by ascending
`position`, fetch the users whose email occurs among the contacts' emails,
and decorate each contact with the looked-up avatar. Pure read: the state is
returned unchanged. -/
def getContacts (db : DB) : Nat × List EnrichedContact × DB :=
  let sorted := db.contacts.mergeSort posLe
  let emails := sorted.map (fun c => c.email)
  let found := db.users.filter (fun u => emails.contains u.email)
  (200, sorted.map (enrich found), db)

/-- Embedding of `getAdminEmails`: emails of the users whose `user_level_id`
is in `adminLevels`, in document order. Pure read. -/
def getAdminEmails (db : DB) : List String × DB :=
  (((db.users.filter (fun u => isAdmin u)).map (fun u => u.email)), db)

/-- Request body of `addContact`; each field may be absent (`none`). -/
structure ContactBody where
  name : Option String
  title : Option String
  email : Option String
  deriving Repr, DecidableEq

/-- Embedding of `addContact`. Gate order mirrors the source: missing user
gives 401, non-admin 403, a falsy `name`/`title`/`email` 400; otherwise
`new AdminContact({name, title, email})` is saved (position defaults to 0,
the database assigns the fresh id `freshId`) and the created contact is
returned with 201. -/
def addContact (user : Option User) (body : ContactBody) (freshId : String)
    (db : DB) : Nat × Option Contact × DB :=
  match user with
  | none => (401, none, db)
  | some u =>
    if !isAdmin u then (403, none, db)
    else if !truthy body.name || !truthy body.title || !truthy body.email then
      (400, none, db)
    else
      let c : Contact :=
        { id := freshId, name := body.name.getD "", title := body.title.getD "",
          email := body.email.getD "", position := 0 }
      (201, some c, { db with contacts := db.contacts ++ [c] })

/-- Partial-update body of `updateContact`; absent fields are left alone. -/
structure ContactPatch where
  name : Option String
  title : Option String
  email : Option String
  deriving Repr, DecidableEq

/-- Application of a mongoose partial update to one contact document:
provided fields overwrite, absent fields persist. -/
def applyPatch (c : Contact) (p : ContactPatch) : Contact :=
  { c with name := p.name.getD c.name, title := p.title.getD c.title,
           email := p.email.getD c.email }

/-- Update of the first (in Mongo, the unique) document with the given id,
as done by `findByIdAndUpdate`. -/
def updateFirst (id : String) (p : ContactPatch) : List Contact → List Contact
  | [] => []
  | c :: rest =>
    if c.id = id then applyPatch c p :: rest else c :: updateFirst id p rest

/-- Embedding of `updateContact`: 401/403 gate, then
`findByIdAndUpdate(id, updates, {new: true})` — 404 when no contact has the
id, otherwise the patched document is stored and returned with 200. -/
def updateContact (user : Option User) (id : String) (p : ContactPatch)
    (db : DB) : Nat × Option Contact × DB :=
  match user with
  | none => (401, none, db)
  | some u =>
    if !isAdmin u then (403, none, db)
    else
      match db.contacts.find? (fun c => c.id = id) with
      | none => (404, none, db)
      | some c =>
        (200, some (applyPatch c p), { db with contacts := updateFirst id p db.contacts })

/-- Embedding of `deleteContact`: 401/403 gate, then `findByIdAndDelete(id)`
— 404 when no contact has the id, otherwise that document is physically
removed and 200 is returned. -/
def deleteContact (user : Option User) (id : String) (db : DB) : Nat × DB :=
  match user with
  | none => (401, db)
  | some u =>
    if !isAdmin u then (403, db)
    else
      match db.contacts.find? (fun c => c.id = id) with
      | none => (404, db)
      | some _ => (200, { db with contacts := db.contacts.eraseP (fun c => c.id = id) })

/-- One loop iteration of `reorderContacts`:
`findByIdAndUpdate(id, {position: pos})` sets the position of every document
whose id matches (at most one in Mongo) and silently does nothing when the
id matches no document. -/
def setPos (id : String) (pos : Int) (contacts : List Contact) : List Contact :=
  contacts.map (fun c => if c.id = id then { c with position := pos } else c)

/-- Ids paired with their loop index (as the `Number` stored into
`position`), the first id getting index `k`. -/
def numbered : List String → Nat → List (String × Int)
  | [], _ => []
  | id :: rest, k => (id, (k : Int)) :: numbered rest (k + 1)

/-- Sequential execution of the position updates of the reorder loop. -/
def applySteps (contacts : List Contact) (steps : List (String × Int)) : List Contact :=
  steps.foldl (fun cs s => setPos s.1 s.2 cs) contacts

/-- Embedding of `reorderContacts`. 401/403 gate; a body whose `orderedIds`
is not an array is modelled as `none` and, like an empty array, gives 400.
The loop awaits one `findByIdAndUpdate` per id; `failAt = some k` with
`k < ids.length` models the persistence call of step `k` throwing, so the
first `k` updates stay applied and the catch block reports 500; otherwise
all updates are applied and 200 is returned. -/
def reorderContacts (user : Option User) (orderedIds : Option (List String))
    (failAt : Option Nat) (db : DB) : Nat × DB :=
  match user with
  | none => (401, db)
  | some u =>
    if !isAdmin u then (403, db)
    else
      match orderedIds with
      | none => (400, db)
      | some ids =>
        if ids.isEmpty then (400, db)
        else
          match failAt with
          | some k =>
            if k < ids.length then
              (500, { db with contacts := applySteps db.contacts ((numbered ids 0).take k) })
            else (200, { db with contacts := applySteps db.contacts (numbered ids 0) })
          | none => (200, { db with contacts := applySteps db.contacts (numbered ids 0) })

/-- Partial-update body of `updateProfile`. -/
structure ProfilePatch where
  userName : Option String
  email : Option String
  bio : Option String
  preferences : Option String
  deriving Repr, DecidableEq

/-- Application of the profile partial update to one user document. -/
def applyProfilePatch (u : User) (p : ProfilePatch) : User :=
  { u with userName := p.userName.getD u.userName, email := p.email.getD u.email,
           bio := p.bio.getD u.bio, preferences := p.preferences.getD u.preferences }

/-- Update of the first (unique) user document with the given id. -/
def updateUserFirst (id : String) (p : ProfilePatch) : List User → List User
  | [] => []
  | u :: rest =>
    if u.id = id then applyProfilePatch u p :: rest else u :: updateUserFirst id p rest

/-- Modelled from the spec: the body of `profileController.updateProfile` is
not among the source files (only its route registration and API doc are), so
this follows the spec's words — fail with Forbidden (403) if the requesting
user does not own `targetId`, with NotFound (404) if the target user does
not exist, otherwise apply the partial updates of `userName`, `email`,
`bio`, `preferences` and return the updated user. -/
def updateProfile (requestingUser : User) (targetId : String) (p : ProfilePatch)
    (db : DB) : Nat × Option User × DB :=
  if requestingUser.id ≠ targetId then (403, none, db)
  else
    match db.users.find? (fun u => u.id = targetId) with
    | none => (404, none, db)
    | some u =>
      (200, some (applyProfilePatch u p), { db with users := updateUserFirst targetId p db.users })

/-- Effect of one reorder step on one contact document: the position is
overwritten exactly when the ids match. -/
def stepContact (c : Contact) (s : String × Int) : Contact :=
  if c.id = s.1 then { c with position := s.2 } else c

/-- Effect of the whole reorder step sequence on one contact document.
Because every step acts on each document independently, the loop is the map
of this fold (`applySteps_eq_map`). -/
def stepFold (steps : List (String × Int)) (c : Contact) : Contact :=
  steps.foldl stepContact c

/-- Sample non-admin user (role level 1) for concrete instantiations. -/
def sampleNonAdmin : User :=
  { id := "u1", email := "user@x", avatarUrl := none, user_level_id := 1,
    userName := "U", bio := "", preferences := "" }

/-- Sample admin user (role level 2) for concrete instantiations. -/
def sampleAdmin : User :=
  { id := "u2", email := "a@x", avatarUrl := some "pic.png", user_level_id := 2,
    userName := "A", bio := "", preferences := "" }

/-- Sample contact documents and database for concrete instantiations. -/
def sampleContactA : Contact :=
  { id := "ca", name := "Alice", title := "Coordinator", email := "a@x", position := 5 }

def sampleContactB : Contact :=
  { id := "cb", name := "Bob", title := "Advisor", email := "b@x", position := 1 }

def sampleDB : DB :=
  { contacts := [sampleContactA, sampleContactB], users := [sampleAdmin, sampleNonAdmin] }

/-! Helper lemmas about the reorder loop. -/

theorem isAdmin_iff (u : User) : isAdmin u = true ↔ u.user_level_id = 2 ∨ u.user_level_id = 3 := by
  simp [isAdmin, adminLevels, List.contains]

theorem stepContact_id (c : Contact) (s : String × Int) : (stepContact c s).id = c.id := by
  unfold stepContact
  split <;> rfl

theorem stepContact_of_ne (c : Contact) (s : String × Int) (h : c.id ≠ s.1) :
    stepContact c s = c := by
  unfold stepContact
  simp [h]

theorem stepFold_id (steps : List (String × Int)) : ∀ c : Contact, (stepFold steps c).id = c.id := by
  induction steps with
  | nil => intro c; rfl
  | cons s rest ih =>
    intro c
    show (stepFold rest (stepContact c s)).id = c.id
    rw [ih, stepContact_id]

theorem stepFold_of_forall_ne (steps : List (String × Int)) :
    ∀ c : Contact, (∀ s ∈ steps, c.id ≠ s.1) → stepFold steps c = c := by
  induction steps with
  | nil => intro c _; rfl
  | cons s rest ih =>
    intro c h
    show stepFold rest (stepContact c s) = c
    rw [stepContact_of_ne c s (h s (List.mem_cons_self s rest))]
    exact ih c fun t ht => h t (List.mem_cons_of_mem s ht)

theorem setPos_eq_map (id : String) (pos : Int) (contacts : List Contact) :
    setPos id pos contacts = contacts.map (fun c => stepContact c (id, pos)) := rfl

theorem applySteps_cons (contacts : List Contact) (s : String × Int)
    (rest : List (String × Int)) :
    applySteps contacts (s :: rest) = applySteps (setPos s.1 s.2 contacts) rest := rfl

theorem applySteps_eq_map :
    ∀ (steps : List (String × Int)) (contacts : List Contact),
      applySteps contacts steps = contacts.map (stepFold steps)
  | [], contacts => by
    show contacts = List.map (stepFold []) contacts
    exact (List.map_id contacts).symm
  | s :: rest, contacts => by
    rw [applySteps_cons, applySteps_eq_map rest, setPos_eq_map, List.map_map]
    rfl

theorem numbered_fst : ∀ (ids : List String) (k : Nat), (numbered ids k).map Prod.fst = ids
  | [], _ => rfl
  | id :: rest, k => by
    show id :: (numbered rest (k + 1)).map Prod.fst = id :: rest
    rw [numbered_fst]

theorem fst_mem_of_mem_numbered {ids : List String} {k : Nat} {s : String × Int}
    (h : s ∈ numbered ids k) : s.1 ∈ ids := by
  have := List.mem_map_of_mem Prod.fst h
  rwa [numbered_fst] at this

theorem numbered_take : ∀ (ids : List String) (k n : Nat),
    (numbered ids k).take n = numbered (ids.take n) k
  | [], _, _ => by simp [numbered]
  | _ :: _, _, 0 => rfl
  | id :: rest, k, n + 1 => by
    show (id, (k : Int)) :: (numbered rest (k + 1)).take n = numbered (id :: rest.take n) k
    rw [numbered_take rest (k + 1) n]
    rfl

theorem stepFold_numbered_pos :
    ∀ (ids : List String) (k i : Nat) (h : i < ids.length) (c : Contact),
      ids.Nodup → c.id = ids.get ⟨i, h⟩ →
      (stepFold (numbered ids k) c).position = (k : Int) + i
  | [], _, i, h, _ => by simp at h
  | id :: rest, k, 0, h, c => by
    intro hnd hc
    simp at hc
    show (stepFold (numbered rest (k + 1)) (stepContact c (id, (k : Int)))).position = _
    have hset : stepContact c (id, (k : Int)) = { c with position := (k : Int) } := by
      unfold stepContact
      simp [hc]
    rw [hset]
    have hnotin : id ∉ rest := (List.nodup_cons.mp hnd).1
    rw [stepFold_of_forall_ne _ _ ?hne]
    · simp
    case hne =>
      intro s hs
      show ({ c with position := (k : Int) } : Contact).id ≠ s.1
      have : s.1 ∈ rest := fst_mem_of_mem_numbered hs
      simp only [hc]
      intro heq
      exact hnotin (heq ▸ this)
  | id :: rest, k, i + 1, h, c => by
    intro hnd hc
    simp at hc
    have hlt : i < rest.length := by simpa using Nat.lt_of_succ_lt_succ h
    show (stepFold (numbered rest (k + 1)) (stepContact c (id, (k : Int)))).position = _
    have hcm : c.id ∈ rest := by
      rw [hc]; exact List.getElem_mem hlt
    have hne : c.id ≠ id := by
      intro heq
      exact (List.nodup_cons.mp hnd).1 (heq ▸ hcm)
    rw [stepContact_of_ne c _ hne]
    have := stepFold_numbered_pos rest (k + 1) i hlt c (List.nodup_cons.mp hnd).2 hc
    rw [this]
    push_cast
    ring

/-! Helper lemmas about the avatar lookup of `getContacts`. -/

theorem mapGet_mem {pairs : List (String × Option String)} {k : String} {v : Option String}
    (h : mapGet pairs k = some v) : (k, v) ∈ pairs := by
  unfold mapGet at h
  cases hf : pairs.reverse.find? (fun p => p.1 = k) with
  | none => rw [hf] at h; simp at h
  | some p =>
    rw [hf] at h
    simp at h
    have hp : p.1 = k := by simpa using List.find?_some hf
    have hm : p ∈ pairs := List.mem_reverse.mp (List.mem_of_find?_eq_some hf)
    have : (k, v) = p := by
      cases p with
      | mk a b => simp_all
    rwa [this]

theorem mapGet_eq_none {pairs : List (String × Option String)} {k : String}
    (h : ∀ p ∈ pairs, p.1 ≠ k) : mapGet pairs k = none := by
  unfold mapGet
  rw [List.find?_eq_none.mpr]
  · rfl
  · intro p hp
    simpa using h p (List.mem_reverse.mp hp)

/-! Helper lemmas about `findByIdAndUpdate` / `findByIdAndDelete` on a
collection whose document ids are pairwise distinct. -/

theorem mem_updateFirst_iff {id : String} {p : ContactPatch} :
    ∀ {contacts : List Contact} {c0 : Contact},
      (contacts.map Contact.id).Nodup →
      contacts.find? (fun c => c.id = id) = some c0 →
      ∀ x : Contact,
        (x ∈ updateFirst id p contacts ↔ (x ∈ contacts ∧ x.id ≠ id) ∨ x = applyPatch c0 p)
  | [], c0 => by intro _ hf; simp at hf
  | c :: rest, c0 => by
    intro hnd hf x
    rw [List.map_cons, List.nodup_cons] at hnd
    by_cases hc : c.id = id
    · have hc0 : c0 = c := by
        rw [List.find?_cons_of_pos _ (by simpa using hc)] at hf
        simpa using hf.symm
      subst hc0
      have hrw : updateFirst id p (c0 :: rest) = applyPatch c0 p :: rest := by
        simp [updateFirst, hc]
      rw [hrw]
      simp only [List.mem_cons]
      constructor
      · rintro (hx | hx)
        · exact Or.inr hx
        · refine Or.inl ⟨Or.inr hx, ?_⟩
          intro hxid
          have hmem : x.id ∈ rest.map Contact.id := List.mem_map_of_mem Contact.id hx
          rw [hxid, ← hc] at hmem
          exact hnd.1 hmem
      · rintro (⟨hx | hx, hxid⟩ | hx)
        · exact absurd (hx ▸ hc) hxid
        · exact Or.inr hx
        · exact Or.inl hx
    · rw [List.find?_cons_of_neg _ (by simpa using hc)] at hf
      have hrw : updateFirst id p (c :: rest) = c :: updateFirst id p rest := by
        simp [updateFirst, hc]
      rw [hrw]
      have ih := mem_updateFirst_iff (p := p) hnd.2 hf x
      simp only [List.mem_cons]
      constructor
      · rintro (hx | hx)
        · exact Or.inl ⟨Or.inl hx, hx ▸ hc⟩
        · rcases ih.mp hx with ⟨hm, hne⟩ | he
          · exact Or.inl ⟨Or.inr hm, hne⟩
          · exact Or.inr he
      · rintro (⟨hx, hxid⟩ | hx)
        · rcases hx with hx | hx
          · exact Or.inl hx
          · exact Or.inr (ih.mpr (Or.inl ⟨hx, hxid⟩))
        · exact Or.inr (ih.mpr (Or.inr hx))

theorem mem_eraseP_id_iff {id : String} :
    ∀ {contacts : List Contact},
      (contacts.map Contact.id).Nodup →
      ∀ x : Contact,
        (x ∈ contacts.eraseP (fun c => c.id = id) ↔ x ∈ contacts ∧ x.id ≠ id) ∨
        (∀ c ∈ contacts, c.id ≠ id)
  | [] => by
    intro _ x
    exact Or.inr (by simp)
  | c :: rest => by
    intro hnd x
    rw [List.map_cons, List.nodup_cons] at hnd
    by_cases hc : c.id = id
    · left
      rw [List.eraseP_cons_of_pos (by simpa using hc)]
      simp only [List.mem_cons]
      constructor
      · intro hx
        refine ⟨Or.inr hx, ?_⟩
        intro hxid
        have hmem : x.id ∈ rest.map Contact.id := List.mem_map_of_mem Contact.id hx
        rw [hxid, ← hc] at hmem
        exact hnd.1 hmem
      · rintro ⟨hx | hx, hxid⟩
        · exact absurd (hx ▸ hc) hxid
        · exact hx
    · rw [List.eraseP_cons_of_neg (by simpa using hc)]
      rcases mem_eraseP_id_iff hnd.2 x with ih | ih
      · left
        simp only [List.mem_cons]
        constructor
        · rintro (hx | hx)
          · exact ⟨Or.inl hx, hx ▸ hc⟩
          · have := ih.mp hx
            exact ⟨Or.inr this.1, this.2⟩
        · rintro ⟨hx | hx, hxid⟩
          · exact Or.inl hx
          · exact Or.inr (ih.mpr ⟨hx, hxid⟩)
      · right
        intro d hd
        rcases List.mem_cons.mp hd with hd | hd
        · exact hd ▸ hc
        · exact ih d hd

/-! Claim theorems. -/

/-- C1: for every admin-mutation operation (`addContact`, `updateContact`,
`deleteContact`, `reorderContacts`) and every payload, a missing
authenticated user yields 401 and an authenticated user whose role level is
not in {2, 3} yields 403, and in both cases the database — in particular the
contact collection — is returned unchanged. -/
theorem admin_mutations_guarded (body : ContactBody) (freshId : String) (cid : String)
    (p : ContactPatch) (ids : Option (List String)) (failAt : Option Nat) (db : DB) :
    (addContact none body freshId db = (401, none, db) ∧
      updateContact none cid p db = (401, none, db) ∧
      deleteContact none cid db = (401, db) ∧
      reorderContacts none ids failAt db = (401, db)) ∧
    ∀ u : User, ¬(u.user_level_id = 2 ∨ u.user_level_id = 3) →
      (addContact (some u) body freshId db = (403, none, db) ∧
        updateContact (some u) cid p db = (403, none, db) ∧
        deleteContact (some u) cid db = (403, db) ∧
        reorderContacts (some u) ids failAt db = (403, db)) := by
  refine ⟨⟨rfl, rfl, rfl, rfl⟩, fun u hu => ?_⟩
  have hA : isAdmin u = false := by
    cases h : isAdmin u with
    | false => rfl
    | true => exact absurd ((isAdmin_iff u).mp h) hu
  exact ⟨by simp [addContact, hA], by simp [updateContact, hA],
    by simp [deleteContact, hA], by simp [reorderContacts, hA]⟩

/-- Witness for C1 at a concrete non-admin user, payloads and database. -/
theorem admin_mutations_guarded_witness :
    ¬(sampleNonAdmin.user_level_id = 2 ∨ sampleNonAdmin.user_level_id = 3) ∧
    addContact (some sampleNonAdmin) { name := some "N", title := some "T", email := some "e@x" }
      "c9" sampleDB = (403, none, sampleDB) := by
  refine ⟨by decide, ?_⟩
  exact ((admin_mutations_guarded { name := some "N", title := some "T", email := some "e@x" }
    "c9" "ca" { name := none, title := none, email := none } (some ["ca"]) none
    sampleDB).2 sampleNonAdmin (by decide)).1

/-- C10: the authorization gate runs before body validation in `addContact`
and `reorderContacts`: for every body — in particular an invalid one
(missing fields, empty or non-array id list) — an unauthenticated caller
gets 401 and a non-admin caller gets 403, never 400. -/
theorem auth_gate_precedes_validation (body : ContactBody) (freshId : String)
    (ids : Option (List String)) (failAt : Option Nat) (db : DB) :
    (addContact none body freshId db).1 = 401 ∧
    (reorderContacts none ids failAt db).1 = 401 ∧
    ∀ u : User, ¬(u.user_level_id = 2 ∨ u.user_level_id = 3) →
      (addContact (some u) body freshId db).1 = 403 ∧
      (reorderContacts (some u) ids failAt db).1 = 403 := by
  refine ⟨rfl, rfl, fun u hu => ?_⟩
  have hA : isAdmin u = false := by
    cases h : isAdmin u with
    | false => rfl
    | true => exact absurd ((isAdmin_iff u).mp h) hu
  exact ⟨by simp [addContact, hA], by simp [reorderContacts, hA]⟩

/-- Witness for C10 at an invalid body (all fields missing, empty id list)
and a concrete non-admin user. -/
theorem auth_gate_precedes_validation_witness :
    ¬(sampleNonAdmin.user_level_id = 2 ∨ sampleNonAdmin.user_level_id = 3) ∧
    (addContact none { name := none, title := none, email := none } "c9" sampleDB).1 = 401 ∧
    (addContact (some sampleNonAdmin) { name := none, title := none, email := none }
      "c9" sampleDB).1 = 403 ∧
    (reorderContacts (some sampleNonAdmin) (some []) none sampleDB).1 = 403 := by
  have h := auth_gate_precedes_validation { name := none, title := none, email := none }
    "c9" (some []) none sampleDB
  exact ⟨by decide, h.1, (h.2.2 sampleNonAdmin (by decide)).1,
    (h.2.2 sampleNonAdmin (by decide)).2⟩

/-- C7: `updateProfile` never succeeds for a foreign target: whenever the
requesting user's id differs from the target id it returns 403 and leaves
the user collection, hence the target's profile, unchanged, for every
payload. -/
theorem updateProfile_foreign_forbidden (ru : User) (targetId : String) (p : ProfilePatch)
    (db : DB) (h : ru.id ≠ targetId) :
    updateProfile ru targetId p db = (403, none, db) := by
  simp [updateProfile, h]

/-- Witness for C7: a concrete user updating another id is rejected. -/
theorem updateProfile_foreign_forbidden_witness :
    sampleNonAdmin.id ≠ "u2" ∧
    updateProfile sampleNonAdmin "u2"
      { userName := some "X", email := some "x@x", bio := some "b", preferences := some "p" }
      sampleDB = (403, none, sampleDB) :=
  ⟨by decide, updateProfile_foreign_forbidden sampleNonAdmin "u2"
    { userName := some "X", email := some "x@x", bio := some "b", preferences := some "p" }
    sampleDB (by decide)⟩

/-- C8: `getAdminEmails` performs no writes and returns exactly the emails
of the users whose role level is in {2, 3}: every returned email belongs to
such a user and every such user's email is returned. -/
theorem getAdminEmails_spec (db : DB) :
    (getAdminEmails db).2 = db ∧
    ∀ e : String, e ∈ (getAdminEmails db).1 ↔
      ∃ u ∈ db.users, (u.user_level_id = 2 ∨ u.user_level_id = 3) ∧ u.email = e := by
  refine ⟨rfl, fun e => ?_⟩
  simp only [getAdminEmails, List.mem_map, List.mem_filter]
  constructor
  · rintro ⟨u, ⟨hm, hl⟩, he⟩
    exact ⟨u, hm, (isAdmin_iff u).mp hl, he⟩
  · rintro ⟨u, hm, hl, he⟩
    exact ⟨u, ⟨hm, (isAdmin_iff u).mpr hl⟩, he⟩

/-- Witness for C8 at the sample database: the admin's email is returned
and the non-admin's is not. -/
theorem getAdminEmails_spec_witness :
    "a@x" ∈ (getAdminEmails sampleDB).1 ∧ ¬"user@x" ∈ (getAdminEmails sampleDB).1 := by
  constructor
  · exact ((getAdminEmails_spec sampleDB).2 "a@x").mpr
      ⟨sampleAdmin, by decide, by decide, by decide⟩
  · intro hmem
    rcases ((getAdminEmails_spec sampleDB).2 "user@x").mp hmem with ⟨u, hm, hl, he⟩
    have : u = sampleAdmin ∨ u = sampleNonAdmin := by
      simpa [sampleDB] using hm
    rcases this with h | h <;> subst h <;> revert hl he <;> decide

/-- Soundness of the avatar enrichment relative to any superset of the
looked-up users: the attached avatar is `none` or is the avatar of a user
with the contact's email, and it is `none` when no user matches. -/
theorem enrich_avatar_sound (users sub : List User) (hsub : ∀ u ∈ sub, u ∈ users)
    (c : Contact) :
    ((enrich sub c).avatarUrl = none ∨
      ∃ u ∈ users, u.email = c.email ∧ u.avatarUrl = (enrich sub c).avatarUrl) ∧
    ((∀ u ∈ users, u.email ≠ c.email) → (enrich sub c).avatarUrl = none) := by
  constructor
  · cases hm : mapGet (userPairs sub) c.email with
    | none => exact Or.inl (by simp [enrich, hm, orNull])
    | some av =>
      cases av with
      | none => exact Or.inl (by simp [enrich, hm, orNull])
      | some s =>
        by_cases hs : s = ""
        · exact Or.inl (by simp [enrich, hm, orNull, hs])
        · right
          have hpm : (c.email, some s) ∈ userPairs sub := mapGet_mem hm
          rcases List.mem_map.mp hpm with ⟨u, hu, hp⟩
          simp only [Prod.mk.injEq] at hp
          exact ⟨u, hsub u hu, hp.1, by simp [enrich, hm, orNull, hs, hp.2]⟩
  · intro hno
    have hpairs : ∀ p ∈ userPairs sub, p.1 ≠ c.email := by
      intro p hp
      rcases List.mem_map.mp hp with ⟨u, hu, rfl⟩
      exact hno u (hsub u hu)
    simp [enrich, mapGet_eq_none hpairs, orNull]

/-- C2: `getContacts` returns 200, performs no writes, its output is sorted
by ascending position, and every returned contact carries an `avatarUrl`
value (the field is total on `EnrichedContact`, so never missing) that is
the avatar of a stored user with the contact's email or `none`, and is
`none` whenever no stored user has that email. -/
theorem getContacts_spec (db : DB) :
    (getContacts db).1 = 200 ∧ (getContacts db).2.2 = db ∧
    List.Pairwise (fun a b : EnrichedContact => a.position ≤ b.position) (getContacts db).2.1 ∧
    ∀ ec ∈ (getContacts db).2.1,
      (ec.avatarUrl = none ∨ ∃ u ∈ db.users, u.email = ec.email ∧ u.avatarUrl = ec.avatarUrl) ∧
      ((∀ u ∈ db.users, u.email ≠ ec.email) → ec.avatarUrl = none) := by
  have htr : ∀ a b c : Contact, posLe a b → posLe b c → posLe a c := by
    intro a b c hab hbc
    simp only [posLe, decide_eq_true_eq] at *
    omega
  have hto : ∀ a b : Contact, posLe a b || posLe b a := by
    intro a b
    rcases le_total a.position b.position with h | h <;> simp [posLe, h]
  have hs : List.Pairwise (fun a b : Contact => posLe a b = true) (db.contacts.mergeSort posLe) :=
    List.sorted_mergeSort htr hto db.contacts
  refine ⟨rfl, rfl, ?_, ?_⟩
  · simp only [getContacts]
    rw [List.pairwise_map]
    refine hs.imp ?_
    intro a b hab
    simpa [posLe] using hab
  · simp only [getContacts]
    intro ec hec
    rcases List.mem_map.mp hec with ⟨c, hc, hrfl⟩
    subst hrfl
    exact enrich_avatar_sound db.users _ (fun u hu => List.mem_of_mem_filter hu) c

/-- Witness for C2 at the sample database. -/
theorem getContacts_spec_witness :
    (getContacts sampleDB).1 = 200 ∧ (getContacts sampleDB).2.2 = sampleDB :=
  ⟨(getContacts_spec sampleDB).1, (getContacts_spec sampleDB).2.1⟩

/-- C5 counterexample: for an admin caller and the body
`{name: "", title: "T", email: "e@x"}` all three fields are present
(none of them is `undefined`), yet `addContact` returns 400 and persists
nothing, because the JS check `!name` also rejects a present empty string —
so "when all three are present it persists ... and returns 201" is false as
stated. -/
theorem addContact_present_field_counterexample :
    (({ name := some "", title := some "T", email := some "e@x" } : ContactBody).name ≠ none ∧
      ({ name := some "", title := some "T", email := some "e@x" } : ContactBody).title ≠ none ∧
      ({ name := some "", title := some "T", email := some "e@x" } : ContactBody).email ≠ none) ∧
    addContact (some sampleAdmin) { name := some "", title := some "T", email := some "e@x" }
      "c9" sampleDB = (400, none, sampleDB) :=
  ⟨⟨by decide, by decide, by decide⟩, by decide⟩

/-- C5 amended: for every admin caller, `addContact` fails with 400 and
persists nothing when any of name, title, email is missing or empty
(JS-falsy); when all three are present and non-empty it persists a new
contact with exactly those fields (position 0, database-assigned id) and
returns 201 with the created contact. -/
theorem addContact_spec (u : User) (hu : u.user_level_id = 2 ∨ u.user_level_id = 3)
    (body : ContactBody) (freshId : String) (db : DB) :
    ((truthy body.name = false ∨ truthy body.title = false ∨ truthy body.email = false) →
      addContact (some u) body freshId db = (400, none, db)) ∧
    (∀ nm ti em : String, body.name = some nm → nm ≠ "" → body.title = some ti → ti ≠ "" →
      body.email = some em → em ≠ "" →
      addContact (some u) body freshId db =
        (201, some { id := freshId, name := nm, title := ti, email := em, position := 0 },
          { db with contacts := db.contacts ++
              [{ id := freshId, name := nm, title := ti, email := em, position := 0 }] })) := by
  have hA : isAdmin u = true := (isAdmin_iff u).mpr hu
  constructor
  · intro hf
    rcases hf with h | h | h <;> simp [addContact, hA, h]
  · intro nm ti em hn hn0 ht ht0 he he0
    simp [addContact, hA, hn, ht, he, truthy, hn0, ht0, he0]

/-- Witness for the amended C5: both the falsy-field branch and the
success branch at concrete inputs. -/
theorem addContact_spec_witness :
    (sampleAdmin.user_level_id = 2 ∨ sampleAdmin.user_level_id = 3) ∧
    addContact (some sampleAdmin) { name := none, title := some "T", email := some "e@x" }
      "c7" sampleDB = (400, none, sampleDB) ∧
    addContact (some sampleAdmin) { name := some "N", title := some "T", email := some "e@x" }
      "c8" sampleDB =
      (201, some { id := "c8", name := "N", title := "T", email := "e@x", position := 0 },
        { sampleDB with contacts := sampleDB.contacts ++
            [{ id := "c8", name := "N", title := "T", email := "e@x", position := 0 }] }) := by
  refine ⟨by decide, ?_, ?_⟩
  · exact (addContact_spec sampleAdmin (by decide)
      { name := none, title := some "T", email := some "e@x" } "c7" sampleDB).1
      (Or.inl (by decide))
  · exact (addContact_spec sampleAdmin (by decide)
      { name := some "N", title := some "T", email := some "e@x" } "c8" sampleDB).2
      "N" "T" "e@x" rfl (by decide) rfl (by decide) rfl (by decide)

/-- C6: for every admin caller, `updateContact` returns 404 with the state
unchanged when the id resolves to no contact and otherwise applies the
partial update and returns the updated contact; `deleteContact` returns 404
with the state unchanged when the contact is absent and otherwise removes
exactly that contact (every other contact is kept, no contact with the id
remains) and returns success. Stated over databases with pairwise-distinct
contact ids, as Mongo guarantees for `_id`. -/
theorem update_delete_contact_spec (u : User) (hu : u.user_level_id = 2 ∨ u.user_level_id = 3)
    (cid : String) (p : ContactPatch) (db : DB)
    (hnd : (db.contacts.map Contact.id).Nodup) :
    (db.contacts.find? (fun c => c.id = cid) = none →
      updateContact (some u) cid p db = (404, none, db) ∧
      deleteContact (some u) cid db = (404, db)) ∧
    (∀ c0, db.contacts.find? (fun c => c.id = cid) = some c0 →
      (updateContact (some u) cid p db).1 = 200 ∧
      (updateContact (some u) cid p db).2.1 = some (applyPatch c0 p) ∧
      (∀ x, x ∈ (updateContact (some u) cid p db).2.2.contacts ↔
        (x ∈ db.contacts ∧ x.id ≠ cid) ∨ x = applyPatch c0 p) ∧
      (updateContact (some u) cid p db).2.2.users = db.users ∧
      (deleteContact (some u) cid db).1 = 200 ∧
      (∀ x, x ∈ (deleteContact (some u) cid db).2.contacts ↔ x ∈ db.contacts ∧ x.id ≠ cid) ∧
      (deleteContact (some u) cid db).2.users = db.users) := by
  have hA : isAdmin u = true := (isAdmin_iff u).mpr hu
  constructor
  · intro hf
    exact ⟨by simp [updateContact, hA, hf], by simp [deleteContact, hA, hf]⟩
  · intro c0 hf
    have hupd : updateContact (some u) cid p db =
        (200, some (applyPatch c0 p), { db with contacts := updateFirst cid p db.contacts }) := by
      simp [updateContact, hA, hf]
    have hdel : deleteContact (some u) cid db =
        (200, { db with contacts := db.contacts.eraseP (fun c => c.id = cid) }) := by
      simp [deleteContact, hA, hf]
    refine ⟨by rw [hupd], by rw [hupd], ?_, by rw [hupd], by rw [hdel], ?_, by rw [hdel]⟩
    · intro x
      rw [hupd]
      exact mem_updateFirst_iff hnd hf x
    · intro x
      rw [hdel]
      rcases mem_eraseP_id_iff hnd x with h | h
      · exact h
      · exact absurd (by simpa using List.find?_some hf)
          (h c0 (List.mem_of_find?_eq_some hf))

/-- Witness for C6: the absent-id branch and the found branch at the sample
database. -/
theorem update_delete_contact_spec_witness :
    (sampleDB.contacts.map Contact.id).Nodup ∧
    sampleDB.contacts.find? (fun c => c.id = "zz") = none ∧
    updateContact (some sampleAdmin) "zz" { name := none, title := some "T2", email := none }
      sampleDB = (404, none, sampleDB) ∧
    sampleDB.contacts.find? (fun c => c.id = "ca") = some sampleContactA ∧
    (updateContact (some sampleAdmin) "ca" { name := none, title := some "T2", email := none }
      sampleDB).1 = 200 := by
  refine ⟨by decide, by decide, ?_, by decide, ?_⟩
  · exact ((update_delete_contact_spec sampleAdmin (by decide) "zz"
      { name := none, title := some "T2", email := none } sampleDB (by decide)).1 (by decide)).1
  · exact ((update_delete_contact_spec sampleAdmin (by decide) "ca"
      { name := none, title := some "T2", email := none } sampleDB (by decide)).2
      sampleContactA (by decide)).1

/-- Mapping a function that fixes every element of a list is the identity. -/
theorem map_eq_self_of_forall {α : Type} {l : List α} {f : α → α}
    (h : ∀ a ∈ l, f a = a) : l.map f = l := by
  induction l with
  | nil => rfl
  | cons a t ih =>
    rw [List.map_cons, h a (List.mem_cons_self a t),
      ih fun b hb => h b (List.mem_cons_of_mem a hb)]

/-- C3: for every admin caller and non-empty duplicate-free id list,
`reorderContacts` returns 200 and every contact in the final state whose id
is the `i`-th element of the list holds position `i` (0-based, in list
order); an absent/non-array or empty `orderedIds` yields 400 and leaves the
state unchanged. -/
theorem reorderContacts_spec (u : User) (hu : u.user_level_id = 2 ∨ u.user_level_id = 3)
    (db : DB) :
    (∀ ids : List String, ids ≠ [] → ids.Nodup →
      (reorderContacts (some u) (some ids) none db).1 = 200 ∧
      ∀ i (h : i < ids.length), ∀ c ∈ (reorderContacts (some u) (some ids) none db).2.contacts,
        c.id = ids.get ⟨i, h⟩ → c.position = (i : Int)) ∧
    reorderContacts (some u) none none db = (400, db) ∧
    reorderContacts (some u) (some []) none db = (400, db) := by
  have hA : isAdmin u = true := (isAdmin_iff u).mpr hu
  refine ⟨?_, by simp [reorderContacts, hA], by simp [reorderContacts, hA]⟩
  intro ids hne hnd
  have hemp : ids.isEmpty = false := by
    cases ids with
    | nil => exact absurd rfl hne
    | cons a t => rfl
  have hred : reorderContacts (some u) (some ids) none db =
      (200, { db with contacts := applySteps db.contacts (numbered ids 0) }) := by
    simp [reorderContacts, hA, hemp]
  have hcts : (reorderContacts (some u) (some ids) none db).2.contacts =
      db.contacts.map (stepFold (numbered ids 0)) := by
    rw [hred, applySteps_eq_map]
  refine ⟨by rw [hred], ?_⟩
  intro i h c hc hcid
  rw [hcts] at hc
  rcases List.mem_map.mp hc with ⟨c0, hc0, hrfl⟩
  subst hrfl
  have hid : c0.id = ids.get ⟨i, h⟩ := by
    rw [← stepFold_id (numbered ids 0) c0]
    exact hcid
  have hpos := stepFold_numbered_pos ids 0 i h c0 hnd hid
  rw [hpos]
  simp

/-- Witness for C3: reordering the sample contacts as `["cb", "ca"]`
returns 200, and the invalid-list branches at the sample database. -/
theorem reorderContacts_spec_witness :
    (sampleAdmin.user_level_id = 2 ∨ sampleAdmin.user_level_id = 3) ∧
    (["cb", "ca"] : List String) ≠ [] ∧ (["cb", "ca"] : List String).Nodup ∧
    (reorderContacts (some sampleAdmin) (some ["cb", "ca"]) none sampleDB).1 = 200 ∧
    reorderContacts (some sampleAdmin) (some []) none sampleDB = (400, sampleDB) := by
  refine ⟨by decide, by decide, by decide, ?_, ?_⟩
  · exact ((reorderContacts_spec sampleAdmin (by decide) sampleDB).1
      ["cb", "ca"] (by decide) (by decide)).1
  · exact (reorderContacts_spec sampleAdmin (by decide) sampleDB).2.2

/-- C9: for every admin caller and non-empty id list, ids matching no stored
contact are silently skipped: the handler still returns 200, every stored
contact whose id is not in the list survives unchanged in the final state,
and when no id in the list matches any contact the state is returned
entirely unchanged (never a 404). -/
theorem reorder_skips_unknown_ids (u : User) (hu : u.user_level_id = 2 ∨ u.user_level_id = 3)
    (ids : List String) (hne : ids ≠ []) (db : DB) :
    (reorderContacts (some u) (some ids) none db).1 = 200 ∧
    (∀ c ∈ db.contacts, c.id ∉ ids →
      c ∈ (reorderContacts (some u) (some ids) none db).2.contacts) ∧
    ((∀ c ∈ db.contacts, c.id ∉ ids) →
      (reorderContacts (some u) (some ids) none db).2 = db) := by
  have hA : isAdmin u = true := (isAdmin_iff u).mpr hu
  have hemp : ids.isEmpty = false := by
    cases ids with
    | nil => exact absurd rfl hne
    | cons a t => rfl
  have hred : reorderContacts (some u) (some ids) none db =
      (200, { db with contacts := applySteps db.contacts (numbered ids 0) }) := by
    simp [reorderContacts, hA, hemp]
  have hcts : (reorderContacts (some u) (some ids) none db).2.contacts =
      db.contacts.map (stepFold (numbered ids 0)) := by
    rw [hred, applySteps_eq_map]
  refine ⟨by rw [hred], ?_, ?_⟩
  · intro c hc hnotin
    rw [hcts]
    refine List.mem_map.mpr ⟨c, hc, ?_⟩
    exact stepFold_of_forall_ne _ c fun s hs heq =>
      hnotin (heq ▸ fst_mem_of_mem_numbered hs)
  · intro hall
    have hmap : db.contacts.map (stepFold (numbered ids 0)) = db.contacts :=
      map_eq_self_of_forall fun c hc =>
        stepFold_of_forall_ne _ c fun s hs heq =>
          hall c hc (heq ▸ fst_mem_of_mem_numbered hs)
    rw [hred]
    show ({ db with contacts := applySteps db.contacts (numbered ids 0) } : DB) = db
    rw [applySteps_eq_map, hmap]

/-- Witness for C9: reordering with the single unknown id `"zz"` returns
200 and leaves the sample database unchanged. -/
theorem reorder_skips_unknown_ids_witness :
    (["zz"] : List String) ≠ [] ∧
    (reorderContacts (some sampleAdmin) (some ["zz"]) none sampleDB).1 = 200 ∧
    (reorderContacts (some sampleAdmin) (some ["zz"]) none sampleDB).2 = sampleDB := by
  have h := reorder_skips_unknown_ids sampleAdmin (by decide) ["zz"] (by decide) sampleDB
  exact ⟨by decide, h.1, h.2.2 (by decide)⟩

/-- C4: `reorderContacts` is not atomic: when the position update of step
`k` fails, the handler reports 500, the assignments for indices `0..k-1`
remain applied (for a duplicate-free list, the contact with the `i`-th id,
`i < k`, holds position `i`), and every contact not referenced by the first
`k` ids — in particular those referenced only by later ids — survives with
its old position; no rollback happens. -/
theorem reorder_midway_failure (u : User) (hu : u.user_level_id = 2 ∨ u.user_level_id = 3)
    (ids : List String) (k : Nat) (hk : k < ids.length) (db : DB) :
    (reorderContacts (some u) (some ids) (some k) db).1 = 500 ∧
    (ids.Nodup → ∀ i (h : i < k),
      ∀ c ∈ (reorderContacts (some u) (some ids) (some k) db).2.contacts,
        c.id = ids.get ⟨i, Nat.lt_trans h hk⟩ → c.position = (i : Int)) ∧
    (∀ c ∈ db.contacts, c.id ∉ ids.take k →
      c ∈ (reorderContacts (some u) (some ids) (some k) db).2.contacts) := by
  have hA : isAdmin u = true := (isAdmin_iff u).mpr hu
  have hemp : ids.isEmpty = false := by
    cases ids with
    | nil => simp at hk
    | cons a t => rfl
  have hred : reorderContacts (some u) (some ids) (some k) db =
      (500, { db with contacts := applySteps db.contacts ((numbered ids 0).take k) }) := by
    simp [reorderContacts, hA, hemp, hk]
  have hcts : (reorderContacts (some u) (some ids) (some k) db).2.contacts =
      db.contacts.map (stepFold (numbered (ids.take k) 0)) := by
    rw [hred]
    show applySteps db.contacts ((numbered ids 0).take k) = _
    rw [numbered_take, applySteps_eq_map]
  refine ⟨by rw [hred], ?_, ?_⟩
  · intro hnd i h c hc hcid
    rw [hcts] at hc
    rcases List.mem_map.mp hc with ⟨c0, hc0, hrfl⟩
    subst hrfl
    have hlen : i < (ids.take k).length := by
      rw [List.length_take]
      omega
    have hget : (ids.take k).get ⟨i, hlen⟩ = ids.get ⟨i, Nat.lt_trans h hk⟩ :=
      List.getElem_take ids
    have hid : c0.id = (ids.take k).get ⟨i, hlen⟩ := by
      rw [hget, ← stepFold_id (numbered (ids.take k) 0) c0]
      exact hcid
    have hndk : (ids.take k).Nodup := List.Nodup.sublist (List.take_sublist k ids) hnd
    have hpos := stepFold_numbered_pos (ids.take k) 0 i hlen c0 hndk hid
    rw [hpos]
    simp
  · intro c hc hnotin
    rw [hcts]
    refine List.mem_map.mpr ⟨c, hc, ?_⟩
    exact stepFold_of_forall_ne _ c fun s hs heq =>
      hnotin (heq ▸ fst_mem_of_mem_numbered hs)

/-- Witness for C4: failing at step 1 of the reorder `["cb", "ca"]` of the
sample database reports 500 while the step-0 assignment stays applied. -/
theorem reorder_midway_failure_witness :
    1 < (["cb", "ca"] : List String).length ∧
    (reorderContacts (some sampleAdmin) (some ["cb", "ca"]) (some 1) sampleDB).1 = 500 := by
  exact ⟨by decide,
    (reorder_midway_failure sampleAdmin (by decide) ["cb", "ca"] 1 (by decide) sampleDB).1⟩

end ExchangeServer
